import Mathlib

/-!
Shallow embedding of the Whisper log-mel feature extractor (`src/lib.rs`).

Modelling conventions:
* `f32` arithmetic is idealised as exact arithmetic in a `LinearOrderedField`
  (instantiated at `ℚ` for executable witnesses and at `ℝ` where the source
  uses transcendental functions); rounding, overflow and infinities are not
  modelled.
* `NaN` is modelled explicitly by the payload type `Fl β` (`nan` or `val x`),
  because the log stage of the source tests `is_nan` and the external
  resampler/FFT libraries may produce NaNs.  Arithmetic on `Fl` propagates
  `nan`; `Fl.fmax` follows Rust `f32::max`, which returns the other operand
  when one side is NaN.
* The transcendental `f32` library primitives (`ln`, `exp`, `cos`, `log10`,
  the constant `π`) are abstracted as function parameters of the definitions
  that use them; claims quantify over these kernels, except where a claim is
  about the real logarithm, in which case `Real.logb 10` is used.
* External crates (hound, rubato, realfft) are modelled as components of an
  environment record `Env`: the decoder hands back a parsed `WavHandle`, the
  resampler and the per-frame FFT are arbitrary `Except`-returning functions.
* Rust functions that return `Result` but have no reachable `Err` branch
  (`pad_or_truncate`, `frame_signal`, `apply_hann_window`,
  `power_spectrogram`, `apply_dynamic_range_compression`, `transpose`) are
  modelled as pure functions.
* Rust `Vec` indexing panics out of bounds; the model totalises indexing with
  `List.getD` defaults.  No claim depends on an out-of-bounds access.
-/

namespace MelSpec

/-- A `f32` value: either NaN or a genuine (exact) number. -/
inductive Fl (β : Type) where
  | nan : Fl β
  | val : β → Fl β
deriving DecidableEq, Repr

/-- `f32::is_nan`. -/
def Fl.isNan {β : Type} : Fl β → Bool
  | .nan => true
  | .val _ => false

/-- `f32` addition with NaN propagation. -/
def Fl.add {β : Type} [Add β] : Fl β → Fl β → Fl β
  | .nan, _ => .nan
  | _, .nan => .nan
  | .val a, .val b => .val (a + b)

/-- `f32` multiplication with NaN propagation (overflow to infinity is not
modelled). -/
def Fl.mul {β : Type} [Mul β] : Fl β → Fl β → Fl β
  | .nan, _ => .nan
  | _, .nan => .nan
  | .val a, .val b => .val (a * b)

/-- Rust `f32::max`: if one operand is NaN the other is returned. -/
def Fl.fmax {β : Type} [LinearOrder β] : Fl β → Fl β → Fl β
  | .nan, b => b
  | .val a, .nan => .val a
  | .val a, .val b => .val (max a b)

/-- `Except.isOk`-negation: whether a stage result is an error. -/
def isErr {ε α : Type} : Except ε α → Bool
  | .error _ => true
  | .ok _ => false

/-! ## `linspace` and the Slaney mel-scale maps (lines 198–231 of the source) -/

/-- `linspace(start, end, num)` from the source: `num` evenly spaced points,
endpoints included. -/
def linspace {β : Type} [Field β] (start stop : β) (num : ℕ) : List β :=
  if num = 0 then []
  else if num = 1 then [start]
  else
    let step := (stop - start) / ((num - 1 : ℕ) : β)
    (List.range num).map (fun i => start + step * (i : β))

/-- `hertz_to_mel_slaney`, with the `f32` natural logarithm abstracted as the
kernel `lnK`.  The source computes `3f/200` and overwrites it in the
`f ≥ 1000` branch; `LOGSTEP = 27 / ln 6.4`. -/
def hertz_to_mel_slaney {β : Type} [Field β] [LinearOrder β] (lnK : β → β) (frequency : β) : β :=
  if 1000 ≤ frequency then 15 + lnK (frequency / 1000) * (27 / lnK (32 / 5))
  else 3 * frequency / 200

/-- `mel_to_hertz_slaney`, with the `f32` `exp` and `ln` abstracted as kernels.
`LOGSTEP = ln 6.4 / 27`. -/
def mel_to_hertz_slaney {β : Type} [Field β] [LinearOrder β] (expK lnK : β → β) (mel : β) : β :=
  if 15 ≤ mel then 1000 * expK (lnK (32 / 5) / 27 * (mel - 15))
  else 200 * mel / 3

/-! ## Triangular filter bank (source lines 233–323) -/

/-- `create_triangular_filter_bank` (source lines 233–269).  Row `k` ranges
over FFT bins, column `m` over mel filters.  `slopes[i] = filter_freqs[i] −
fft_freq`; `down_slope = −slopes[m]/filter_diffs[m]` and
`up_slope = slopes[m+2]/filter_diffs[m+1]`, each guarded to `0` when the
corresponding spacing is zero; the entry is `down_slope.min(up_slope).max(0)`. -/
def create_triangular_filter_bank {β : Type} [Field β] [LinearOrder β]
    (fft_freqs filter_freqs : List β) : Except String (List (List β)) :=
  let num_mel_filters := filter_freqs.length - 2
  if num_mel_filters = 0 then
    .error "Number of mel filters must be positive."
  else
    let filter_diffs : List β := (filter_freqs.zip filter_freqs.tail).map (fun p => p.2 - p.1)
    .ok <| fft_freqs.map (fun fft_freq =>
      let slopes : List β := filter_freqs.map (fun filter_freq => filter_freq - fft_freq)
      (List.range num_mel_filters).map (fun m =>
        let down_slope : β :=
          if filter_diffs.getD m 0 ≠ 0 then -(slopes.getD m 0) / filter_diffs.getD m 0 else 0
        let up_slope : β :=
          if filter_diffs.getD (m + 1) 0 ≠ 0 then slopes.getD (m + 2) 0 / filter_diffs.getD (m + 1) 0
          else 0
        max (min down_slope up_slope) 0))

/-- The machine epsilon of `f32`, `2⁻²³`, used by the Slaney-width guard. -/
def f32Epsilon {β : Type} [Field β] : β := 1 / 8388608

/-- `mel_filter_bank` (source lines 271–323): build the filter frequencies in
the mel domain, map them back to Hz, build the triangles, and apply Slaney
normalisation (`2/width` per column, `0` when the width is not above machine
epsilon). -/
def mel_filter_bank {β : Type} [Field β] [LinearOrder β] (lnK expK : β → β)
    (num_frequency_bins num_mel_filters : ℕ) (min_frequency max_frequency : β)
    (sampling_rate : ℕ) (use_slaney_norm : Bool) : Except String (List (List β)) :=
  let nyquist : β := (sampling_rate : β) / 2
  let mel_min := hertz_to_mel_slaney lnK min_frequency
  let mel_max := hertz_to_mel_slaney lnK max_frequency
  let mel_freqs_vec := linspace mel_min mel_max (num_mel_filters + 2)
  let filter_freqs_hz := mel_freqs_vec.map (mel_to_hertz_slaney expK lnK)
  let fft_freqs_hz := linspace 0 nyquist num_frequency_bins
  match create_triangular_filter_bank fft_freqs_hz filter_freqs_hz with
  | .error e => .error e
  | .ok mel_filters =>
    if use_slaney_norm then
      let slaney_norm_factors : List β := (List.range num_mel_filters).map (fun i =>
        let width := filter_freqs_hz.getD (i + 2) 0 - filter_freqs_hz.getD i 0
        if f32Epsilon < width then 2 / width else 0)
      .ok (mel_filters.map (fun row =>
        (row.zip slaney_norm_factors).map (fun p => p.1 * p.2)))
    else
      .ok mel_filters

/-! ## Framing, padding, windowing, power (source lines 80–171) -/

/-- `pad_or_truncate` (source lines 80–93): truncate or zero-extend to
`target_len`, then put `frame_length / 2` zeros on each side.  The source
returns `Result` but has no error path. -/
def pad_or_truncate {β : Type} [Zero β] (samples : List (Fl β))
    (target_len frame_length : ℕ) : List (Fl β) :=
  let inner :=
    if target_len < samples.length then samples.take target_len
    else samples ++ List.replicate (target_len - samples.length) (Fl.val 0)
  let pad_each := frame_length / 2
  List.replicate pad_each (Fl.val 0) ++ inner ++ List.replicate pad_each (Fl.val 0)

/-- `frame_signal` (source lines 109–123): `num_frames = (len − frame_length +
hop_length) / hop_length` (an unsigned subtraction in Rust, which panics when
`len < frame_length`; here ℕ-subtraction truncates — the panic condition is
modelled separately by `numFramesExprChecked`), and frame `i` is
`samples[i·hop .. i·hop+frame_length)`, pushed only when it fits. -/
def frame_signal {α : Type} (samples : List α) (frame_length hop_length : ℕ) : List (List α) :=
  let num_frames := (samples.length - frame_length + hop_length) / hop_length
  (List.range num_frames).filterMap (fun i =>
    let start := i * hop_length
    if start + frame_length ≤ samples.length then
      some ((samples.drop start).take frame_length)
    else
      none)

/-- Rust debug-mode checked `usize` subtraction: `a - b` panics when `a < b`. -/
def checkedSub (a b : ℕ) : Option ℕ :=
  if b ≤ a then some (a - b) else none

/-- The frame-count expression `samples.len() - frame_length + hop_length)
/ hop_length` with Rust's left-to-right evaluation: the subtraction
`len - frame_length` is performed first and underflows exactly when
`len < frame_length`. -/
def numFramesExprChecked (len frame_length hop_length : ℕ) : Option ℕ :=
  (checkedSub len frame_length).map (fun d => (d + hop_length) / hop_length)

/-- `apply_hann_window` (source lines 125–138), with the `f32` cosine and π
abstracted as kernels: `hann[i] = 0.5 − 0.5·cos(2π i / N)` with
`N = frames[0].len()`, multiplied elementwise into every frame. -/
def apply_hann_window {β : Type} [Field β] (cosK : β → β) (piK : β)
    (frames : List (List (Fl β))) : List (List (Fl β)) :=
  let frame_len := (frames.headD []).length
  let hann : List β := (List.range frame_len).map (fun i =>
    1 / 2 - 1 / 2 * cosK (2 * piK * (i : β) / (frame_len : β)))
  frames.map (fun frame => (frame.zip hann).map (fun p => p.1.mul (Fl.val p.2)))

/-- `power_spectrogram` (source lines 163–171): elementwise
`norm_sqr = re² + im²`. -/
def power_spectrogram {β : Type} [Mul β] [Add β]
    (spectrogram : List (List (Fl β × Fl β))) : List (List (Fl β)) :=
  spectrogram.map (fun frame => frame.map (fun c => (c.1.mul c.1).add (c.2.mul c.2)))

/-- The mel-projection triple loop inlined in `extract_whisper_features`
(source lines 537–547): `mel[i][m] = Σ_{k<201} power[i][k] · filters[k][m]`
for `i < 3000`, `m < 80`, accumulated from `0.0`. -/
def melProject {β : Type} [Field β] (power_spec : List (List (Fl β)))
    (mel_filters : List (List β)) : List (List (Fl β)) :=
  (List.range 3000).map (fun i =>
    (List.range 80).map (fun m =>
      (List.range 201).foldl (fun sum k =>
        sum.add (((power_spec.getD i []).getD k (Fl.val 0)).mul
          (Fl.val ((mel_filters.getD k []).getD m 0)))) (Fl.val 0)))

/-! ## Log stage (source lines 325–338) -/

/-- One row of `apply_log`: fail on the first NaN, otherwise replace each
value by `log10K (max v eps)`.  The `f32` `log10` is abstracted as the kernel
`log10K` (instantiated with `Real.logb 10` in the claims about the real
logarithm); `eps` is the source's `1e-10` floor. -/
def applyLogRow {β : Type} [LinearOrder β] (log10K : β → β) (eps : β) :
    List (Fl β) → Except String (List (Fl β))
  | [] => .ok []
  | .nan :: _ => .error "Encountered nan value in mel spectrogram"
  | .val x :: rest =>
    (applyLogRow log10K eps rest).map (fun tail => Fl.val (log10K (max x eps)) :: tail)

/-- `apply_log` (source lines 325–338): row by row, failing on the first NaN
encountered, otherwise `v ← log10(max(v, 1e-10))` elementwise. -/
def apply_log {β : Type} [LinearOrder β] (log10K : β → β) (eps : β) :
    List (List (Fl β)) → Except String (List (List (Fl β)))
  | [] => .ok []
  | row :: rest =>
    match applyLogRow log10K eps row with
    | .error e => .error e
    | .ok row' => (apply_log log10K eps rest).map (fun tail => row' :: tail)

/-! ## Dynamic range compression (source lines 388–412) -/

/-- One step of the running-maximum loop `if *val > max_val { max_val = *val }`
starting from `NEG_INFINITY` (modelled as `none`): a NaN never updates the
accumulator (`NaN > x` is false), a real value updates it when strictly
larger (or when the accumulator is still `−∞`). -/
def maxStep {β : Type} [LinearOrder β] (acc : Option β) : Fl β → Option β
  | .nan => acc
  | .val x =>
    match acc with
    | none => some x
    | some a => if a < x then some x else acc

/-- The global maximum scan of `apply_dynamic_range_compression`:
`none` plays the role of the `NEG_INFINITY` initialiser. -/
def matrix_max {β : Type} [LinearOrder β] (m : List (List (Fl β))) : Option β :=
  m.foldl (fun acc row => row.foldl maxStep acc) none

/-- `apply_dynamic_range_compression` (source lines 388–412): empty input (or
empty first row) is returned unchanged; otherwise `floor_val = max_val − 8`
and elementwise `v ← max(v, floor_val)` (Rust `f32::max`, so a NaN becomes
`floor_val`) then `v ← (v + 4)/4`.  When the non-empty matrix contains no
real entry at all (`matrix_max = none`, i.e. every element is NaN) the Rust
code would produce `−∞` entries, which lie outside this model's value domain;
that branch is unreachable in the pipeline (the log stage has already
rejected NaNs) and the model returns the matrix unchanged there. -/
def apply_dynamic_range_compression {β : Type} [LinearOrderedField β]
    (m : List (List (Fl β))) : List (List (Fl β)) :=
  if m.isEmpty || (m.headD []).isEmpty then m
  else
    match matrix_max m with
    | none => m
    | some max_val =>
      let floor_val := max_val - 8
      m.map (fun row => row.map (fun v =>
        match v.fmax (Fl.val floor_val) with
        | .nan => Fl.nan
        | .val y => Fl.val ((y + 4) / 4)))

/-! ## Transpose (source lines 414–426) -/

/-- `transpose` (source lines 414–426): an 80 × 3000 matrix initialised to
zero with `transposed[i][j] = matrix[j][i]` written for `i < num_cols`,
`j < num_rows`; the remaining cells keep their `0.0` initialiser.  (Rust
panics when `num_cols > 80` or `num_rows > 3000`; the pipeline matrix is
exactly 3000 × 80.) -/
def transpose {β : Type} [Zero β] (matrix : List (List (Fl β))) : List (List (Fl β)) :=
  let num_rows := matrix.length
  let num_cols := (matrix.headD []).length
  (List.range 80).map (fun i =>
    (List.range 3000).map (fun j =>
      if i < num_cols ∧ j < num_rows then (matrix.getD j []).getD i (Fl.val 0)
      else Fl.val 0))

/-! ## Decoder (source lines 36–57) and external environment -/

/-- The parse result the hound codec hands back on a successful
`WavReader::open`: the header spec (sample rate, channel count) and the
per-sample read results of `into_samples::<i16>()` (each sample read may
individually fail). -/
structure WavHandle where
  sample_rate : ℕ
  channels : ℕ
  samples : List (Except String ℤ)

/-- Rust `slice::chunks(n)`: groups of `n`, last group possibly shorter
(`n = 0` panics in Rust; the model returns `[]`). -/
def chunksOf {α : Type} : ℕ → List α → List (List α)
  | 0, _ => []
  | _, [] => []
  | n + 1, x :: xs => ((x :: xs).take (n + 1)) :: chunksOf (n + 1) (xs.drop n)
termination_by _ l => l.length
decreasing_by simp [List.length_drop]; omega

/-- `read_wav` (source lines 36–57), with the codec abstracted as its open
result.  On open failure the error is wrapped as `"Failed to open WAV: …"`.
On success the per-sample results are passed through
`filter_map(Result::ok)` — individually failed sample reads are silently
dropped — each kept sample is normalised by `i16::MAX = 32767`, and a
multi-channel stream is averaged chunkwise to mono. -/
def read_wav {β : Type} [Field β] (openResult : Except String WavHandle) :
    Except String (List β × ℕ) :=
  match openResult with
  | .error e => .error ("Failed to open WAV: " ++ e)
  | .ok h =>
    let samples : List β :=
      (h.samples.filterMap Except.toOption).map (fun s => (s : β) / 32767)
    let mono : List β :=
      if h.channels = 1 then samples
      else (chunksOf h.channels samples).map (fun chunk => chunk.sum / (chunk.length : β))
    .ok (mono, h.sample_rate)

/-- The external collaborators of the pipeline: the UTF-8 decode of the path
(`CStr::to_str`), the hound open result per path, the rubato resampler
(`SincFixedIn::new` + `process`, collapsed into one fallible call, only made
when the rates differ), and the realfft forward transform applied to one
frame. -/
structure Env (β : Type) where
  pathStr : Option String
  openWav : String → Except String WavHandle
  resample : List β → Except String (List (Fl β))
  rfftFrame : List (Fl β) → Except String (List (Fl β × Fl β))

/-- `resample_audio` (source lines 59–78): identity when the rates agree,
otherwise the external sinc resampler. -/
def resample_audio {β : Type} (env : Env β) (samples : List β)
    (orig_rate target_rate : ℕ) : Except String (List (Fl β)) :=
  if orig_rate = target_rate then .ok (samples.map Fl.val)
  else env.resample samples

/-- `apply_rfft` (source lines 140–161): the frames are transformed in order
and the first FFT-engine error aborts the stage. -/
def apply_rfft {β : Type} (env : Env β) :
    List (List (Fl β)) → Except String (List (List (Fl β × Fl β)))
  | [] => .ok []
  | frame :: rest =>
    match env.rfftFrame frame with
    | .error e => .error ("FFT error: " ++ e)
    | .ok out => (apply_rfft env rest).map (fun tail => out :: tail)

/-! ## The C ABI record and the orchestrator (source lines 14–29, 428–591) -/

/-- `MelSpectrogramData`: the raw `data` pointer is modelled as an optional
flat list (`none` = null). -/
structure MelSpectrogramData (β : Type) where
  data : Option (List (Fl β))
  n_frames : ℕ
  n_mels : ℕ

/-- `MelSpectrogramData::default()`: the null record. -/
def MelSpectrogramData.default (β : Type) : MelSpectrogramData β :=
  ⟨none, 0, 0⟩

/-- `extract_whisper_features` (source lines 428–591): every stage failure
(invalid UTF-8 path, decoder, resampler, FFT, filterbank, log) returns the
null record; on success the 3000 × 80 compressed log-mel matrix is
transposed to 80 × 3000, flattened, and returned with
`n_frames = 3000, n_mels = 80`. -/
def extract_whisper_features {β : Type} [LinearOrderedField β]
    (lnK expK cosK log10K : β → β) (piK : β) (env : Env β) : MelSpectrogramData β :=
  match env.pathStr with
  | none => .default β
  | some path_str =>
    match read_wav (β := β) (env.openWav path_str) with
    | .error _ => .default β
    | .ok (mono, orig_sample_rate) =>
      match resample_audio env mono orig_sample_rate 16000 with
      | .error _ => .default β
      | .ok resampled =>
        let padded := pad_or_truncate resampled 480000 400
        let framed := frame_signal padded 400 160
        let hann_weighted := apply_hann_window cosK piK framed
        match apply_rfft env hann_weighted with
        | .error _ => .default β
        | .ok rfft_spectrogram =>
          let power_spec := power_spectrogram rfft_spectrogram
          match mel_filter_bank lnK expK 201 80 0 8000 16000 true with
          | .error _ => .default β
          | .ok mel_filters =>
            let mel_spectrogram := melProject power_spec mel_filters
            match apply_log log10K (1 / 10 ^ 10) mel_spectrogram with
            | .error _ => .default β
            | .ok mel_log_spectrogram =>
              let final_spectrogram := apply_dynamic_range_compression mel_log_spectrogram
              let transposed_spectrogram := transpose final_spectrogram
              ⟨some transposed_spectrogram.flatten, 3000, 80⟩

/-- The stage-failure condition of the pipeline: some stage of
`extract_whisper_features` returns an error (or the path is not valid
UTF-8).  Mirrors the data flow of the orchestrator. -/
def pipelineFails {β : Type} [LinearOrderedField β]
    (lnK expK cosK log10K : β → β) (piK : β) (env : Env β) : Bool :=
  match env.pathStr with
  | none => true
  | some path_str =>
    match read_wav (β := β) (env.openWav path_str) with
    | .error _ => true
    | .ok (mono, orig_sample_rate) =>
      match resample_audio env mono orig_sample_rate 16000 with
      | .error _ => true
      | .ok resampled =>
        let padded := pad_or_truncate resampled 480000 400
        let framed := frame_signal padded 400 160
        let hann_weighted := apply_hann_window cosK piK framed
        match apply_rfft env hann_weighted with
        | .error _ => true
        | .ok rfft_spectrogram =>
          let power_spec := power_spectrogram rfft_spectrogram
          match mel_filter_bank lnK expK 201 80 0 8000 16000 true with
          | .error _ => true
          | .ok mel_filters =>
            isErr (apply_log log10K (1 / 10 ^ 10) (melProject power_spec mel_filters))

/-! ## Lemmas about the running maximum of the compression stage -/

/-- `maxStep` never downgrades a `some` accumulator. -/
lemma maxStep_mono {β : Type} [LinearOrder β] (a : β) (v : Fl β) :
    ∃ b, maxStep (some a) v = some b ∧ a ≤ b := by
  cases v with
  | nan => exact ⟨a, rfl, le_refl a⟩
  | val x =>
    by_cases h : a < x
    · exact ⟨x, by simp [maxStep, h], le_of_lt h⟩
    · exact ⟨a, by simp [maxStep, h], le_refl a⟩

/-- Folding `maxStep` over a row keeps any lower bound of the accumulator. -/
lemma foldl_maxStep_acc {β : Type} [LinearOrder β] (row : List (Fl β)) :
    ∀ a : β, ∃ b, row.foldl maxStep (some a) = some b ∧ a ≤ b := by
  induction row with
  | nil => exact fun a => ⟨a, rfl, le_refl a⟩
  | cons v rest ih =>
    intro a
    obtain ⟨c, hc, hac⟩ := maxStep_mono a v
    obtain ⟨b, hb, hcb⟩ := ih c
    exact ⟨b, by simp only [List.foldl_cons, hc, hb], le_trans hac hcb⟩

/-- Any real value present in a row bounds the row fold from below. -/
lemma foldl_maxStep_mem {β : Type} [LinearOrder β] (row : List (Fl β)) :
    ∀ (acc : Option β) (x : β), Fl.val x ∈ row →
      ∃ b, row.foldl maxStep acc = some b ∧ x ≤ b := by
  induction row with
  | nil => intro _ _ hx; cases hx
  | cons v rest ih =>
    intro acc x hx
    rcases List.mem_cons.mp hx with hv | hx'
    · subst hv
      have hstep : ∃ c, maxStep acc (Fl.val x) = some c ∧ x ≤ c := by
        cases acc with
        | none => exact ⟨x, rfl, le_refl x⟩
        | some a =>
          by_cases h : a < x
          · exact ⟨x, by simp [maxStep, h], le_refl x⟩
          · exact ⟨a, by simp [maxStep, h], le_of_not_lt h⟩
      obtain ⟨c, hc, hxc⟩ := hstep
      obtain ⟨b, hb, hcb⟩ := foldl_maxStep_acc rest c
      exact ⟨b, by simp only [List.foldl_cons, hc, hb], le_trans hxc hcb⟩
    · exact ih (maxStep acc v) x hx'

/-- Folding rows keeps any lower bound of the accumulator. -/
lemma foldl_rows_acc {β : Type} [LinearOrder β] (rows : List (List (Fl β))) :
    ∀ a : β, ∃ b,
      rows.foldl (fun acc row => row.foldl maxStep acc) (some a) = some b ∧ a ≤ b := by
  induction rows with
  | nil => exact fun a => ⟨a, rfl, le_refl a⟩
  | cons row rest ih =>
    intro a
    obtain ⟨c, hc, hac⟩ := foldl_maxStep_acc row a
    obtain ⟨b, hb, hcb⟩ := ih c
    exact ⟨b, by simp only [List.foldl_cons, hc, hb], le_trans hac hcb⟩

/-- Every real entry of the matrix is bounded by `matrix_max`. -/
lemma matrix_max_bounds {β : Type} [LinearOrder β] (m : List (List (Fl β)))
    (mv : β) (hmv : matrix_max m = some mv) :
    ∀ row ∈ m, ∀ x : β, Fl.val x ∈ row → x ≤ mv := by
  suffices h : ∀ (rows : List (List (Fl β))) (acc : Option β) (b : β),
      rows.foldl (fun acc row => row.foldl maxStep acc) acc = some b →
      ∀ row ∈ rows, ∀ x : β, Fl.val x ∈ row → x ≤ b by
    intro row hrow x hx
    exact h m none mv hmv row hrow x hx
  intro rows
  induction rows with
  | nil => intro acc b _ row hrow; cases hrow
  | cons r rest ih =>
    intro acc b hfold row hrow x hx
    rcases List.mem_cons.mp hrow with hr | hrow'
    · subst hr
      obtain ⟨c, hc, hxc⟩ := foldl_maxStep_mem row acc x hx
      simp only [List.foldl_cons, hc] at hfold
      obtain ⟨b', hb', hcb'⟩ := foldl_rows_acc rest c
      rw [hfold] at hb'
      exact le_trans hxc (le_trans hcb' (by injection hb' with h; rw [h]))
    · simp only [List.foldl_cons] at hfold
      exact ih (r.foldl maxStep acc) b hfold row hrow' x hx

/-- C2 helper: the elementwise description of the compression output. -/
lemma compression_eq_map {β : Type} [LinearOrderedField β] (m : List (List (Fl β)))
    (h1 : m ≠ []) (h2 : m.headD [] ≠ []) (mv : β) (hmv : matrix_max m = some mv) :
    apply_dynamic_range_compression m =
      m.map (fun row => row.map (fun v =>
        match v.fmax (Fl.val (mv - 8)) with
        | .nan => Fl.nan
        | .val y => Fl.val ((y + 4) / 4))) := by
  cases m with
  | nil => exact absurd rfl h1
  | cons r rest =>
    have hr : r ≠ [] := by simpa using h2
    have hmv' : matrix_max (r :: rest) = some mv := hmv
    unfold apply_dynamic_range_compression
    simp [List.isEmpty_iff, hr, hmv']

/-- C2: every output element of the compression stage is a real value in
`[(max − 4)/4, (max + 4)/4]`, where `max` is the global running maximum the
stage computed over the pre-compression matrix.  (A NaN input cell would be
clamped to the floor and also lands at the lower endpoint.) -/
theorem c2_compression_range {β : Type} [LinearOrderedField β]
    (m : List (List (Fl β))) (h1 : m ≠ []) (h2 : m.headD [] ≠ [])
    (mv : β) (hmv : matrix_max m = some mv) :
    ∀ row ∈ apply_dynamic_range_compression m, ∀ v ∈ row,
      ∃ x : β, v = Fl.val x ∧ (mv - 4) / 4 ≤ x ∧ x ≤ (mv + 4) / 4 := by
  intro row hrow v hv
  rw [compression_eq_map m h1 h2 mv hmv] at hrow
  obtain ⟨r, hr, hrw⟩ := List.mem_map.mp hrow
  subst hrw
  obtain ⟨w, hw, hvw⟩ := List.mem_map.mp hv
  subst hvw
  cases w with
  | nan =>
    refine ⟨(mv - 8 + 4) / 4, rfl, by linarith, by linarith⟩
  | val x0 =>
    have hx0 : x0 ≤ mv := matrix_max_bounds m mv hmv r hr x0 hw
    refine ⟨(max x0 (mv - 8) + 4) / 4, rfl, ?_, ?_⟩
    · have := le_max_right x0 (mv - 8)
      linarith
    · have : max x0 (mv - 8) ≤ mv := max_le hx0 (by linarith)
      linarith

/-- C2 witness at the concrete matrix `[[0]]`. -/
theorem c2_witness :
    ∃ x : ℚ, Fl.val (1 : ℚ) = Fl.val x ∧ ((0 : ℚ) - 4) / 4 ≤ x ∧ x ≤ ((0 : ℚ) + 4) / 4 := by
  have happ : apply_dynamic_range_compression [[Fl.val (0 : ℚ)]] = [[Fl.val 1]] := by
    simp [apply_dynamic_range_compression, matrix_max, maxStep, Fl.fmax]
  have := c2_compression_range [[Fl.val (0 : ℚ)]] (by simp) (by simp) 0
    (by simp [matrix_max, maxStep]) [Fl.val 1] (by rw [happ]; simp) (Fl.val 1) (by simp)
  exact this

/-- C3 counterexample: on the matrix `[[0]]` the pre-compression maximum is
`0`, the compressed value is `1 = (max + 4)/4`, and the claimed upper bound
`(max − 4)/4 = −1` does not hold. -/
theorem c3_counterexample :
    matrix_max [[Fl.val (0 : ℚ)]] = some 0 ∧
    apply_dynamic_range_compression [[Fl.val (0 : ℚ)]] = [[Fl.val 1]] ∧
    ¬ ((1 : ℚ) ≤ ((0 : ℚ) - 4) / 4) := by
  refine ⟨by simp [matrix_max, maxStep], ?_, by norm_num⟩
  simp [apply_dynamic_range_compression, matrix_max, maxStep, Fl.fmax]

/-- C3 as amended: every compressed element `v` satisfies
`(max + 4)/4 ≥ v ≥ (max + 4)/4 − 2` (the spec's `−4` in the upper bound is a
slip for `+4`; the width-2 structure of the bound is kept). -/
theorem c3_compression_range_amended {β : Type} [LinearOrderedField β]
    (m : List (List (Fl β))) (h1 : m ≠ []) (h2 : m.headD [] ≠ [])
    (mv : β) (hmv : matrix_max m = some mv) :
    ∀ row ∈ apply_dynamic_range_compression m, ∀ v ∈ row,
      ∃ x : β, v = Fl.val x ∧ x ≤ (mv + 4) / 4 ∧ (mv + 4) / 4 - 2 ≤ x := by
  intro row hrow v hv
  rw [compression_eq_map m h1 h2 mv hmv] at hrow
  obtain ⟨r, hr, hrw⟩ := List.mem_map.mp hrow
  subst hrw
  obtain ⟨w, hw, hvw⟩ := List.mem_map.mp hv
  subst hvw
  cases w with
  | nan =>
    refine ⟨(mv - 8 + 4) / 4, rfl, by linarith, by linarith⟩
  | val x0 =>
    have hx0 : x0 ≤ mv := matrix_max_bounds m mv hmv r hr x0 hw
    refine ⟨(max x0 (mv - 8) + 4) / 4, rfl, ?_, ?_⟩
    · have : max x0 (mv - 8) ≤ mv := max_le hx0 (by linarith)
      linarith
    · have := le_max_right x0 (mv - 8)
      linarith

/-- C3 witness at the concrete matrix `[[0]]`. -/
theorem c3_witness :
    ∃ x : ℚ, Fl.val (1 : ℚ) = Fl.val x ∧ x ≤ ((0 : ℚ) + 4) / 4 ∧ ((0 : ℚ) + 4) / 4 - 2 ≤ x := by
  have happ : apply_dynamic_range_compression [[Fl.val (0 : ℚ)]] = [[Fl.val 1]] := by
    simp [apply_dynamic_range_compression, matrix_max, maxStep, Fl.fmax]
  exact c3_compression_range_amended [[Fl.val (0 : ℚ)]] (by simp) (by simp) 0
    (by simp [matrix_max, maxStep]) [Fl.val 1] (by rw [happ]; simp) (Fl.val 1) (by simp)

/-! ## C1: the step-5 triangle-weight formulas -/

/-- Modelled from the spec: the step-5 triangle-weight formulas exactly as the
spec words them —
`down = (filter_freqs_hz[m+1] − fft_freqs_hz[k]) / (filter_freqs_hz[m+1] − filter_freqs_hz[m])`,
`up = (fft_freqs_hz[k] − filter_freqs_hz[m+1]) / (filter_freqs_hz[m+2] − filter_freqs_hz[m+1])`,
result `max(0, min(down, up))`. -/
def spec_triangle_weight {β : Type} [Field β] [LinearOrder β]
    (fft_freqs filter_freqs : List β) (k m : ℕ) : β :=
  let f := fft_freqs.getD k 0
  let down := (filter_freqs.getD (m + 1) 0 - f) /
    (filter_freqs.getD (m + 1) 0 - filter_freqs.getD m 0)
  let up := (f - filter_freqs.getD (m + 1) 0) /
    (filter_freqs.getD (m + 2) 0 - filter_freqs.getD (m + 1) 0)
  max 0 (min down up)

/-- The corrected step-5 formulas: the rising (down) slope
`(fft_freqs_hz[k] − filter_freqs_hz[m]) / (filter_freqs_hz[m+1] − filter_freqs_hz[m])`
on the left flank and the falling (up) slope
`(filter_freqs_hz[m+2] − fft_freqs_hz[k]) / (filter_freqs_hz[m+2] − filter_freqs_hz[m+1])`
on the right flank, each zero when the corresponding spacing is zero, combined
as `max(0, min(down, up))`. -/
def amended_triangle_weight {β : Type} [Field β] [LinearOrder β]
    (fft_freqs filter_freqs : List β) (k m : ℕ) : β :=
  let f := fft_freqs.getD k 0
  let lo := filter_freqs.getD m 0
  let mid := filter_freqs.getD (m + 1) 0
  let hi := filter_freqs.getD (m + 2) 0
  let down := if mid - lo ≠ 0 then (f - lo) / (mid - lo) else 0
  let up := if hi - mid ≠ 0 then (hi - f) / (hi - mid) else 0
  max 0 (min down up)

/-- C1 counterexample: with `filter_freqs = [0, 1, 2]` and the FFT bin at
`1/2`, the code computes the triangle weight `1/2`, while the spec's step-5
formulas give `max(0, min(1/2, −1/2)) = 0`. -/
theorem c1_counterexample :
    create_triangular_filter_bank (β := ℚ) [1 / 2] [0, 1, 2] = .ok [[1 / 2]] ∧
    spec_triangle_weight (β := ℚ) [1 / 2] [0, 1, 2] 0 0 = 0 ∧ ¬ ((1 / 2 : ℚ) = 0) := by
  refine ⟨?_, ?_, by norm_num⟩
  · simp [create_triangular_filter_bank, List.range_succ]
    norm_num
  · simp [spec_triangle_weight]
    norm_num

/-- `getD` of a mapped list at an in-range index. -/
lemma getD_map_lt {α γ : Type} (l : List α) (g : α → γ) (k : ℕ) (hk : k < l.length)
    (d : γ) (d' : α) : (l.map g).getD k d = g (l.getD k d') := by
  rw [List.getD_eq_getElem?_getD, List.getD_eq_getElem?_getD, List.getElem?_map]
  rw [List.getElem?_eq_getElem hk]
  simp

/-- `getD` of a map over `List.range` at an in-range index. -/
lemma getD_range_map_lt {γ : Type} (n : ℕ) (h : ℕ → γ) (m : ℕ) (hm : m < n) (d : γ) :
    ((List.range n).map h).getD m d = h m := by
  rw [getD_map_lt (List.range n) h m (by simpa using hm) d 0]
  rw [List.getD_eq_getElem?_getD, List.getElem?_range hm]
  rfl

/-- `getD` of the consecutive-difference list built by `windows(2)`
(modelled as `zip` with the tail). -/
lemma getD_diffs_lt {β : Type} [Field β] (l : List β) (i : ℕ) (hi : i + 1 < l.length) :
    ((l.zip l.tail).map (fun p => p.2 - p.1)).getD i 0 = l.getD (i + 1) 0 - l.getD i 0 := by
  have hlen : i < (l.zip l.tail).length := by
    simp [List.length_zip, List.length_tail]
    omega
  rw [List.getD_eq_getElem _ _ (by simpa using hlen)]
  rw [List.getElem_map]
  rw [List.getElem_zip]
  simp only [List.getElem_tail]
  rw [List.getD_eq_getElem l 0 (by omega), List.getD_eq_getElem l 0 (by omega)]

/-- C1 as amended: for every in-range FFT bin `k` and filter index `m`, the
triangle weight computed by `create_triangular_filter_bank` equals the
corrected formula `max(0, min(down, up))` with the rising slope on
`[f_m, f_{m+1}]` and the falling slope on `[f_{m+1}, f_{m+2}]`. -/
theorem c1_triangle_weight_amended {β : Type} [Field β] [LinearOrder β]
    (fft_freqs filter_freqs : List β) (k m : ℕ)
    (hk : k < fft_freqs.length) (hm : m < filter_freqs.length - 2) :
    ∃ M, create_triangular_filter_bank fft_freqs filter_freqs = .ok M ∧
      (M.getD k []).getD m 0 = amended_triangle_weight fft_freqs filter_freqs k m := by
  have hnz : ¬ (filter_freqs.length - 2 = 0) := by omega
  have hm2 : m + 2 < filter_freqs.length := by omega
  cases hres : create_triangular_filter_bank fft_freqs filter_freqs with
  | error e =>
    exfalso
    simp only [create_triangular_filter_bank, if_neg hnz] at hres
    exact Except.noConfusion hres
  | ok M =>
    refine ⟨M, rfl, ?_⟩
    simp only [create_triangular_filter_bank, if_neg hnz] at hres
    obtain rfl := Except.ok.inj hres
    rw [getD_map_lt fft_freqs _ k hk [] 0]
    rw [getD_range_map_lt (filter_freqs.length - 2) _ m hm 0]
    rw [getD_diffs_lt filter_freqs m (by omega), getD_diffs_lt filter_freqs (m + 1) (by omega)]
    rw [getD_map_lt filter_freqs _ m (by omega) 0 0,
      getD_map_lt filter_freqs _ (m + 2) (by omega) 0 0]
    unfold amended_triangle_weight
    rw [max_comm]
    congr 1
    congr 1
    split
    · ring
    · rfl

/-- C1 witness at the concrete frequency lists `[1/2]` and `[0, 1, 2]`. -/
theorem c1_witness :
    ∃ M, create_triangular_filter_bank (β := ℚ) [1 / 2] [0, 1, 2] = .ok M ∧
      (M.getD 0 []).getD 0 0 = amended_triangle_weight (β := ℚ) [1 / 2] [0, 1, 2] 0 0 :=
  c1_triangle_weight_amended [1 / 2] [0, 1, 2] 0 0 (by norm_num) (by norm_num)

/-! ## C10: the unsigned frame-count expression -/

/-- C10 counterexample: at `len = 399`, `frame_length = 400`, `hop = 160` the
claimed precondition `len ≥ frame_length − hop_length` holds, yet the
left-to-right evaluation of `len − frame_length + hop_length` underflows on
the `usize` subtraction `399 − 400`. -/
theorem c10_counterexample :
    400 - 160 ≤ 399 ∧ numFramesExprChecked 399 400 160 = none := by decide

/-- C10 as amended: the subtraction `samples.len() − frame_length` is
evaluated first, so the expression underflows exactly when
`samples.len() < frame_length`; the pipeline's padded buffer always has
length 480 400 ≥ 400, so the underflow branch is unreachable there and the
expression evaluates to 3001 frames. -/
theorem c10_underflow_amended :
    (∀ len frame_length hop_length : ℕ,
      numFramesExprChecked len frame_length hop_length = none ↔ len < frame_length) ∧
    (∀ s : List (Fl ℚ), (pad_or_truncate s 480000 400).length = 480400) ∧
    numFramesExprChecked 480400 400 160 = some 3001 := by
  refine ⟨?_, ?_, by decide⟩
  · intro len fl hl
    unfold numFramesExprChecked checkedSub
    split
    · simp
      omega
    · simp
      omega
  · intro s
    unfold pad_or_truncate
    split
    · simp only [List.length_append, List.length_replicate, List.length_take]
      omega
    · simp only [List.length_append, List.length_replicate]
      omega

/-! ## C4: frame count, frame contents, and the 3000-frame slice -/

/-- `filterMap` of an everywhere-`some` function is a `map`. -/
lemma filterMap_eq_map_of_forall {γ δ : Type} (l : List γ) (f : γ → Option δ) (g : γ → δ)
    (h : ∀ i ∈ l, f i = some (g i)) : l.filterMap f = l.map g := by
  induction l with
  | nil => rfl
  | cons a rest ih =>
    rw [List.filterMap_cons, h a (List.mem_cons_self a rest), List.map_cons]
    rw [ih (fun i hi => h i (List.mem_cons_of_mem a hi))]

/-- On a 480 400-sample buffer the framer is the map of the 3001 window
slices. -/
lemma frame_signal_eq_map {α : Type} (s : List α) (h : s.length = 480400) :
    frame_signal s 400 160 =
      (List.range 3001).map (fun i => (s.drop (i * 160)).take 400) := by
  unfold frame_signal
  rw [h]
  norm_num
  exact filterMap_eq_map_of_forall _ _ _ (fun i hi => by
    rw [if_pos]
    have : i < 3001 := List.mem_range.mp hi
    omega)

/-- `getD` on a `take` prefix agrees with the original below the cut. -/
lemma getD_take_lt {γ : Type} (l : List γ) (n i : ℕ) (h : i < n) (d : γ) :
    (l.take n).getD i d = l.getD i d := by
  rw [List.getD_eq_getElem?_getD, List.getD_eq_getElem?_getD, List.getElem?_take, if_pos h]

/-- C4: on the 480 400-sample padded buffer with frame length 400 and hop 160
the framer produces `(480400 − 400 + 160)/160 = 3001` frames, frame `i` is
the slice `[i·160, i·160 + 400)`, and the mel projection reads only the
first 3000 frames (rows ≥ 3000 of the power matrix never influence it, hence
neither the compressed and transposed output computed from it). -/
theorem c4_framer_count_and_slice {α : Type} (s : List α) (h : s.length = 480400) :
    (frame_signal s 400 160).length = 3001 ∧
    (480400 - 400 + 160) / 160 = 3001 ∧
    (∀ i, i < 3001 → (frame_signal s 400 160).getD i [] = (s.drop (i * 160)).take 400) ∧
    (∀ (power_spec : List (List (Fl ℚ))) (mel_filters : List (List ℚ)),
      melProject power_spec mel_filters = melProject (power_spec.take 3000) mel_filters) := by
  refine ⟨?_, by norm_num, ?_, ?_⟩
  · rw [frame_signal_eq_map s h]
    simp
  · intro i hi
    rw [frame_signal_eq_map s h]
    rw [getD_range_map_lt 3001 _ i hi []]
  · intro power_spec mel_filters
    unfold melProject
    refine List.map_congr_left (fun i hi => ?_)
    have hi' : i < 3000 := List.mem_range.mp hi
    rw [getD_take_lt power_spec 3000 i hi' []]

/-- C4 witness on the all-zero padded buffer. -/
theorem c4_witness :
    (frame_signal (List.replicate 480400 (0 : ℚ)) 400 160).length = 3001 :=
  (c4_framer_count_and_slice (List.replicate 480400 (0 : ℚ))
    (List.length_replicate 480400 0)).1

/-! ## C6 / C9: the log stage -/

/-- `isErr` is invariant under `Except.map`. -/
lemma isErr_map_pre {ε α γ : Type} (f : α → γ) (e : Except ε α) : isErr (e.map f) = isErr e := by
  cases e <;> rfl

/-- The elementwise operation of a successful log stage:
`v ← log10(max(v, eps))` on real values. -/
def logFloorElem {β : Type} [LinearOrder β] (log10K : β → β) (eps : β) : Fl β → Fl β
  | .nan => .nan
  | .val x => .val (log10K (max x eps))

/-- A row of `apply_log` errors exactly when it contains a NaN. -/
lemma applyLogRow_err_iff {β : Type} [LinearOrder β] (log10K : β → β) (eps : β)
    (row : List (Fl β)) :
    isErr (applyLogRow log10K eps row) = true ↔ Fl.nan ∈ row := by
  induction row with
  | nil => simp [applyLogRow, isErr]
  | cons v rest ih =>
    cases v with
    | nan => simp [applyLogRow, isErr]
    | val x =>
      simp only [applyLogRow, isErr_map_pre]
      rw [ih, List.mem_cons]
      simp

/-- A NaN-free row maps to the elementwise floored logarithm. -/
lemma applyLogRow_ok {β : Type} [LinearOrder β] (log10K : β → β) (eps : β)
    (row : List (Fl β)) (h : Fl.nan ∉ row) :
    applyLogRow log10K eps row = .ok (row.map (logFloorElem log10K eps)) := by
  induction row with
  | nil => rfl
  | cons v rest ih =>
    cases v with
    | nan => exact absurd (List.mem_cons_self _ _) h
    | val x =>
      have hrest : Fl.nan ∉ rest := fun hc => h (List.mem_cons_of_mem _ hc)
      simp only [applyLogRow, ih hrest, Except.map, List.map_cons, logFloorElem]

/-- The log stage errors exactly when some row contains a NaN. -/
lemma apply_log_err_iff {β : Type} [LinearOrder β] (log10K : β → β) (eps : β)
    (m : List (List (Fl β))) :
    isErr (apply_log log10K eps m) = true ↔ ∃ row ∈ m, Fl.nan ∈ row := by
  induction m with
  | nil => simp [apply_log, isErr]
  | cons row rest ih =>
    simp only [apply_log]
    cases hr : applyLogRow log10K eps row with
    | error e =>
      have hnan : Fl.nan ∈ row := (applyLogRow_err_iff log10K eps row).mp (by rw [hr]; rfl)
      simp only [isErr, true_iff]
      exact ⟨row, List.mem_cons_self _ _, hnan⟩
    | ok row' =>
      have hnotnan : Fl.nan ∉ row := by
        intro hc
        have h2 := (applyLogRow_err_iff log10K eps row).mpr hc
        rw [hr] at h2
        simp [isErr] at h2
      rw [isErr_map_pre]
      rw [ih]
      constructor
      · rintro ⟨r, hrmem, hrnan⟩
        exact ⟨r, List.mem_cons_of_mem _ hrmem, hrnan⟩
      · rintro ⟨r, hrmem, hrnan⟩
        rcases List.mem_cons.mp hrmem with hre | hrm
        · exact absurd (hre ▸ hrnan) hnotnan
        · exact ⟨r, hrm, hrnan⟩

/-- On a NaN-free matrix the log stage is the elementwise floored logarithm. -/
lemma apply_log_ok {β : Type} [LinearOrder β] (log10K : β → β) (eps : β)
    (m : List (List (Fl β))) (h : ∀ row ∈ m, Fl.nan ∉ row) :
    apply_log log10K eps m =
      .ok (m.map (fun row => row.map (logFloorElem log10K eps))) := by
  induction m with
  | nil => rfl
  | cons row rest ih =>
    simp only [apply_log]
    rw [applyLogRow_ok log10K eps row (h row (List.mem_cons_self _ _))]
    rw [ih (fun r hr => h r (List.mem_cons_of_mem _ hr))]
    rfl

/-- The floor value of the log stage: `log10(1e-10) = −10` exactly. -/
lemma logb_ten_floor : Real.logb 10 ((1 : ℝ) / 10 ^ 10) = -10 := by
  rw [show ((1 : ℝ) / 10 ^ 10) = (10 : ℝ) ^ (-10 : ℝ) by
    rw [show ((-10 : ℝ)) = ((-10 : ℤ) : ℝ) by norm_num, Real.rpow_intCast]
    norm_num]
  exact Real.logb_rpow (by norm_num) (by norm_num)

/-- C6: the log stage fails if and only if the input matrix contains a NaN;
on NaN-free input it returns the matrix with every element replaced by
`log10(max(v, 1e-10))`, and a cell that is exactly `0` maps to
`log10(1e-10) = −10`. -/
theorem c6_log_stage (m : List (List (Fl ℝ))) :
    (isErr (apply_log (Real.logb 10) (1 / 10 ^ 10) m) = true ↔ ∃ row ∈ m, Fl.nan ∈ row) ∧
    ((∀ row ∈ m, Fl.nan ∉ row) →
      apply_log (Real.logb 10) (1 / 10 ^ 10) m =
        .ok (m.map (fun row => row.map (logFloorElem (Real.logb 10) (1 / 10 ^ 10))))) ∧
    Real.logb 10 (max (0 : ℝ) (1 / 10 ^ 10)) = -10 := by
  refine ⟨apply_log_err_iff (Real.logb 10) (1 / 10 ^ 10) m,
    apply_log_ok (Real.logb 10) (1 / 10 ^ 10) m, ?_⟩
  rw [max_eq_right (by norm_num : (0 : ℝ) ≤ 1 / 10 ^ 10)]
  exact logb_ten_floor

/-- Every entry of the raw triangular filter bank is non-negative (it is a
`max` with `0`). -/
lemma create_bank_nonneg {β : Type} [Field β] [LinearOrder β]
    (fft_freqs filter_freqs : List β) (M : List (List β))
    (h : create_triangular_filter_bank fft_freqs filter_freqs = .ok M) :
    ∀ row ∈ M, ∀ w ∈ row, 0 ≤ w := by
  simp only [create_triangular_filter_bank] at h
  split at h
  · exact Except.noConfusion h
  · obtain rfl := Except.ok.inj h
    intro row hrow w hw
    obtain ⟨f, _, rfl⟩ := List.mem_map.mp hrow
    obtain ⟨mm, _, rfl⟩ := List.mem_map.mp hw
    exact le_max_right _ 0

/-- Every Slaney normalisation factor is non-negative: `2/width` with
`width > ε > 0`, or the `0` fallback. -/
lemma slaney_factor_nonneg {β : Type} [LinearOrderedField β]
    (filter_freqs_hz : List β) (i : ℕ) :
    0 ≤ (if f32Epsilon < filter_freqs_hz.getD (i + 2) 0 - filter_freqs_hz.getD i 0
      then 2 / (filter_freqs_hz.getD (i + 2) 0 - filter_freqs_hz.getD i 0) else (0 : β)) := by
  split
  · apply div_nonneg (by norm_num)
    have heps : (0 : β) < f32Epsilon := by
      unfold f32Epsilon
      norm_num
    linarith
  · exact le_refl 0

/-- Every weight of the (optionally Slaney-normalised) mel filter bank is
non-negative. -/
lemma mel_filter_bank_nonneg {β : Type} [LinearOrderedField β] (lnK expK : β → β)
    (num_frequency_bins num_mel_filters : ℕ) (min_frequency max_frequency : β)
    (sampling_rate : ℕ) (use_slaney_norm : Bool) (M : List (List β))
    (h : mel_filter_bank lnK expK num_frequency_bins num_mel_filters min_frequency
      max_frequency sampling_rate use_slaney_norm = .ok M) :
    ∀ row ∈ M, ∀ w ∈ row, 0 ≤ w := by
  simp only [mel_filter_bank] at h
  split at h
  · exact Except.noConfusion h
  · rename_i T hT
    split at h
    · obtain rfl := Except.ok.inj h
      intro row hrow w hw
      obtain ⟨r, hr, rfl⟩ := List.mem_map.mp hrow
      obtain ⟨p, hp, rfl⟩ := List.mem_map.mp hw
      obtain ⟨hp1, hp2⟩ := List.of_mem_zip hp
      obtain ⟨i, _, hpi⟩ := List.mem_map.mp hp2
      refine mul_nonneg (create_bank_nonneg _ _ T hT r hr p.1 hp1) ?_
      rw [← hpi]
      exact slaney_factor_nonneg _ i
    · obtain rfl := Except.ok.inj h
      exact create_bank_nonneg _ _ _ hT

/-- Every entry of the power spectrogram is a NaN or a non-negative real
(`re² + im²`). -/
lemma power_spectrogram_nonneg {β : Type} [LinearOrderedField β]
    (spec : List (List (Fl β × Fl β))) :
    ∀ row ∈ power_spectrogram spec, ∀ v ∈ row,
      v = Fl.nan ∨ ∃ x : β, v = Fl.val x ∧ 0 ≤ x := by
  intro row hrow v hv
  obtain ⟨fr, _, rfl⟩ := List.mem_map.mp hrow
  obtain ⟨c, _, rfl⟩ := List.mem_map.mp hv
  obtain ⟨re, im⟩ := c
  cases re with
  | nan =>
    cases im with
    | nan => exact Or.inl rfl
    | val b => exact Or.inl rfl
  | val a =>
    cases im with
    | nan => exact Or.inl rfl
    | val b =>
      exact Or.inr ⟨a * a + b * b, rfl,
        add_nonneg (mul_self_nonneg a) (mul_self_nonneg b)⟩

/-- C9: the power spectrogram entries are non-negative (or NaN), every mel
filter weight is non-negative, and every element of a successfully computed
pre-compression log-mel matrix is at least `log10(1e-10) = −10`. -/
theorem c9_log_mel_floor :
    (∀ spec : List (List (Fl ℚ × Fl ℚ)), ∀ row ∈ power_spectrogram spec, ∀ v ∈ row,
      v = Fl.nan ∨ ∃ x : ℚ, v = Fl.val x ∧ 0 ≤ x) ∧
    (∀ (lnK expK : ℚ → ℚ) (nbins nmels : ℕ) (minf maxf : ℚ) (sr : ℕ) (useNorm : Bool)
      (M : List (List ℚ)),
      mel_filter_bank lnK expK nbins nmels minf maxf sr useNorm = .ok M →
      ∀ row ∈ M, ∀ w ∈ row, 0 ≤ w) ∧
    (∀ m out : List (List (Fl ℝ)), apply_log (Real.logb 10) (1 / 10 ^ 10) m = .ok out →
      ∀ row ∈ out, ∀ v ∈ row, ∃ x : ℝ, v = Fl.val x ∧ (-10 : ℝ) ≤ x) := by
  refine ⟨power_spectrogram_nonneg, ?_, ?_⟩
  · intro lnK expK nbins nmels minf maxf sr useNorm M h
    exact mel_filter_bank_nonneg lnK expK nbins nmels minf maxf sr useNorm M h
  · intro m out h row hrow v hv
    have hnonan : ∀ r ∈ m, Fl.nan ∉ r := by
      intro r hr hc
      have herr := (apply_log_err_iff (Real.logb 10) (1 / 10 ^ 10) m).mpr ⟨r, hr, hc⟩
      rw [h] at herr
      simp [isErr] at herr
    rw [apply_log_ok (Real.logb 10) (1 / 10 ^ 10) m hnonan] at h
    obtain rfl := Except.ok.inj h
    obtain ⟨r, hr, rfl⟩ := List.mem_map.mp hrow
    obtain ⟨w, hw, rfl⟩ := List.mem_map.mp hv
    cases w with
    | nan => exact absurd hw (by simpa using hnonan r hr)
    | val x =>
      refine ⟨Real.logb 10 (max x (1 / 10 ^ 10)), rfl, ?_⟩
      have heps : (0 : ℝ) < 1 / 10 ^ 10 := by norm_num
      have hle : Real.logb 10 ((1 : ℝ) / 10 ^ 10) ≤ Real.logb 10 (max x (1 / 10 ^ 10)) :=
        Real.logb_le_logb_of_le (by norm_num) heps (le_max_right _ _)
      rw [logb_ten_floor] at hle
      exact hle

/-- C9 witness: a concrete power-spectrogram cell, a concrete filter bank,
and a concrete log-mel cell. -/
theorem c9_witness :
    (Fl.val (0 : ℚ) = Fl.nan ∨ ∃ x : ℚ, Fl.val (0 : ℚ) = Fl.val x ∧ 0 ≤ x) ∧
    (0 : ℚ) ≤ 0 ∧
    (∃ x : ℝ, Fl.val (Real.logb 10 (max (1 : ℝ) (1 / 10 ^ 10))) = Fl.val x ∧ (-10 : ℝ) ≤ x) := by
  refine ⟨?_, ?_, ?_⟩
  · exact c9_log_mel_floor.1 [[(Fl.val 0, Fl.val 0)]] [Fl.val 0]
      (by simp [power_spectrogram, Fl.mul, Fl.add]) (Fl.val 0) (by simp)
  · refine c9_log_mel_floor.2.1 (fun _ => 0) (fun _ => 0) 1 1 0 100 16000 false [[0]] ?_
      [(0 : ℚ)] (by simp) 0 (by simp)
    simp [mel_filter_bank, create_triangular_filter_bank, linspace,
      hertz_to_mel_slaney, mel_to_hertz_slaney, List.range_succ]
    norm_num
  · exact c9_log_mel_floor.2.2 [[Fl.val (1 : ℝ)]]
      [[Fl.val (Real.logb 10 (max (1 : ℝ) (1 / 10 ^ 10)))]] rfl
      [Fl.val (Real.logb 10 (max (1 : ℝ) (1 / 10 ^ 10)))] (by simp)
      (Fl.val (Real.logb 10 (max (1 : ℝ) (1 / 10 ^ 10)))) (by simp)

/-! ## C7: the decoder's error behaviour -/

/-- C7 counterexample: a successfully opened file whose single sample read
fails is NOT rejected — `filter_map(Result::ok)` silently drops the failed
read and the decoder returns an (empty) sample vector. -/
theorem c7_counterexample :
    read_wav (β := ℚ) (Except.ok ⟨16000, 1, [Except.error "sample read failure"]⟩) =
      Except.ok ([], 16000) ∧
    isErr (read_wav (β := ℚ)
      (Except.ok ⟨16000, 1, [Except.error "sample read failure"]⟩)) = false := by
  constructor
  · simp [read_wav, Except.toOption]
  · simp [read_wav, Except.toOption, isErr]

/-- Dropping the failed sample reads from the stream does not change the
decoder's result (they are silently skipped). -/
lemma filterMap_toOption_filter {α : Type} (samples : List (Except String α)) :
    (samples.filter (fun s => !isErr s)).filterMap Except.toOption =
      samples.filterMap Except.toOption := by
  induction samples with
  | nil => rfl
  | cons s rest ih =>
    cases s with
    | error e =>
      rw [List.filter_cons, if_neg (by simp [isErr])]
      rw [ih, List.filterMap_cons]
      simp [Except.toOption]
    | ok a =>
      rw [List.filter_cons, if_pos (by simp [isErr])]
      rw [List.filterMap_cons, List.filterMap_cons]
      simp only [Except.toOption]
      rw [ih]

/-- C7 as amended: the decoder fails (with a wrapped `DecodeError` message)
exactly when opening the WAV file fails; individually failed sample reads
are silently skipped, i.e. the decoder behaves as if they were absent. -/
theorem c7_decode_error_amended {β : Type} [Field β] :
    (∀ openResult : Except String WavHandle,
      isErr (read_wav (β := β) openResult) = isErr openResult) ∧
    (∀ (r c : ℕ) (samples : List (Except String ℤ)),
      read_wav (β := β) (.ok ⟨r, c, samples⟩) =
        read_wav (β := β) (.ok ⟨r, c, samples.filter (fun s => !isErr s)⟩)) := by
  constructor
  · intro openResult
    cases openResult with
    | error e => rfl
    | ok h => rfl
  · intro r c samples
    simp only [read_wav, filterMap_toOption_filter]

/-- C6 witness: on the NaN-free matrix `[[2]]` the log stage succeeds and
maps the cell to `log10(max(2, 1e-10))`. -/
theorem c6_witness :
    apply_log (Real.logb 10) (1 / 10 ^ 10) [[Fl.val (2 : ℝ)]] =
      .ok [[Fl.val (Real.logb 10 (max (2 : ℝ) (1 / 10 ^ 10)))]] := by
  have h := (c6_log_stage [[Fl.val (2 : ℝ)]]).2.1 (by simp)
  simpa [logFloorElem] using h

/-! ## C5 / C8: the orchestrator's failure and success shapes -/

/-- C5: the pipeline returns the null record (`data = null`, `n_frames = 0`,
`n_mels = 0`) exactly when some stage fails — an invalid-UTF-8 path, a
decoder open failure, a resampler failure, an FFT failure, a filterbank
failure, or a NaN in the mel spectrogram — and never returns a
partially-filled record: on success the record is fully populated, so the
null record is returned if and only if a stage failed. -/
theorem c5_failure_null_record {β : Type} [LinearOrderedField β]
    (lnK expK cosK log10K : β → β) (piK : β) (env : Env β) :
    pipelineFails lnK expK cosK log10K piK env = true ↔
      extract_whisper_features lnK expK cosK log10K piK env =
        MelSpectrogramData.default β := by
  unfold pipelineFails extract_whisper_features
  cases hp : env.pathStr with
  | none => simp
  | some p =>
    dsimp only
    cases hw : read_wav (β := β) (env.openWav p) with
    | error e => simp
    | ok v =>
      obtain ⟨mono, rate⟩ := v
      dsimp only
      cases hs : resample_audio env mono rate 16000 with
      | error e => simp
      | ok res =>
        dsimp only
        cases hf : apply_rfft env
            (apply_hann_window cosK piK
              (frame_signal (pad_or_truncate res 480000 400) 400 160)) with
        | error e => simp
        | ok spec =>
          dsimp only
          cases hb : mel_filter_bank lnK expK 201 80 0 8000 16000 true with
          | error e => simp
          | ok filters =>
            dsimp only
            cases hl : apply_log log10K (1 / 10 ^ 10)
                (melProject (power_spectrogram spec) filters) with
            | error e => simp [isErr]
            | ok logmel => simp [isErr, MelSpectrogramData.default]

/-- Flattening the transposed matrix always yields `80 · 3000 = 240000`
elements. -/
lemma transpose_flatten_length {β : Type} [Zero β] (M : List (List (Fl β))) :
    (transpose M).flatten.length = 240000 := by
  unfold transpose
  rw [List.length_flatten, List.map_map]
  have h : (List.length ∘ fun i => (List.range 3000).map
      (fun j => if i < (M.headD []).length ∧ j < M.length
        then (M.getD j []).getD i (Fl.val 0) else Fl.val 0)) = fun _ => 3000 := by
    funext i
    simp
  rw [h, List.map_const', List.sum_replicate, smul_eq_mul, List.length_range]

/-- C8: on every input the pipeline returns either the null record or a
fully-shaped record with `n_frames = 3000`, `n_mels = 80` and a non-null
`data` buffer of `80 · 3000 = 240000` elements; in particular every
successful run has exactly this shape. -/
theorem c8_success_shape {β : Type} [LinearOrderedField β]
    (lnK expK cosK log10K : β → β) (piK : β) (env : Env β) :
    extract_whisper_features lnK expK cosK log10K piK env =
      MelSpectrogramData.default β ∨
    ((extract_whisper_features lnK expK cosK log10K piK env).n_frames = 3000 ∧
     (extract_whisper_features lnK expK cosK log10K piK env).n_mels = 80 ∧
     ∃ d, (extract_whisper_features lnK expK cosK log10K piK env).data = some d ∧
       d.length = 240000) := by
  unfold extract_whisper_features
  cases hp : env.pathStr with
  | none => exact Or.inl rfl
  | some p =>
    dsimp only
    cases hw : read_wav (β := β) (env.openWav p) with
    | error e => exact Or.inl rfl
    | ok v =>
      obtain ⟨mono, rate⟩ := v
      dsimp only
      cases hs : resample_audio env mono rate 16000 with
      | error e => exact Or.inl rfl
      | ok res =>
        dsimp only
        cases hf : apply_rfft env
            (apply_hann_window cosK piK
              (frame_signal (pad_or_truncate res 480000 400) 400 160)) with
        | error e => exact Or.inl rfl
        | ok spec =>
          dsimp only
          cases hb : mel_filter_bank lnK expK 201 80 0 8000 16000 true with
          | error e => exact Or.inl rfl
          | ok filters =>
            dsimp only
            cases hl : apply_log log10K (1 / 10 ^ 10)
                (melProject (power_spectrogram spec) filters) with
            | error e => exact Or.inl rfl
            | ok logmel =>
              dsimp only
              exact Or.inr ⟨rfl, rfl, _, rfl, transpose_flatten_length _⟩

end MelSpec

